import Mathlib

/-!
Verification of the cycle-synchronized windowing, adaptive display gain, and
auto-loudness-balancing core of the tonejs-step-sequencer repository.

The embedding is shallow: each TypeScript function of `src/visuals.ts` and
`src/autoGain.ts` that the claims mention is translated into a Lean
definition of the same name.  JavaScript numbers are modelled with exact
arithmetic: `ℚ` where the source only performs field operations and
comparisons on rational literals, `ℝ` where the source calls transcendental
library functions (`Math.sqrt`, `Math.log`, `Math.exp`).  `Float32Array`
sample storage is modelled with `List ℚ` (the ring buffer moves values
around without arithmetic on them).  Fallible or external operations
(recorder, decoder) are modelled by explicit outcome parameters.
-/

namespace Ring

/-- State of one channel's waveform ring buffer, from `waveformRingState`
in `src/visuals.ts`: a fixed-capacity circular sample store, the next write
position, and the count of valid samples (capped at capacity). -/
structure RingState where
  buffer : List ℚ
  writeIndex : ℕ
  filled : ℕ
deriving DecidableEq, Repr

/-- A fresh ring of capacity `c`, as allocated in `waveformRingState`
(`new Float32Array(WAVEFORM_BUFFER_MAX)` is zero-initialized). -/
def initRing (c : ℕ) : RingState :=
  { buffer := List.replicate c 0, writeIndex := 0, filled := 0 }

/-- The body of the per-sample loop of `writeRingBuffer`: store the sample
at `writeIndex`, advance, and wrap to 0 at capacity.  (An out-of-range
store on a `Float32Array` is ignored, matching `List.set` out of range.) -/
def writeSample (s : RingState) (v : ℚ) : RingState :=
  let buf := s.buffer.set s.writeIndex v
  let wi := s.writeIndex + 1
  { buffer := buf
    writeIndex := if buf.length ≤ wi then 0 else wi
    filled := s.filled }

/-- `writeRingBuffer` from `src/visuals.ts`: append every sample of
`frame`, wrapping modulo capacity, then raise `filled` by the frame length,
capped at capacity. -/
def writeRingBuffer (s : RingState) (frame : List ℚ) : RingState :=
  let s' := frame.foldl writeSample s
  { s' with filled := min s'.buffer.length (s.filled + frame.length) }

/-- `readRingBuffer` from `src/visuals.ts`: return the last
`min(length, filled, capacity)` written samples in chronological order,
assembled from at most two contiguous chunks of the circular store.
The function is side-effect free (it returns a fresh list and leaves the
`RingState` untouched by construction). -/
def readRingBuffer (s : RingState) (length : ℕ) : List ℚ :=
  let c := s.buffer.length
  let available := min length (min s.filled c)
  if available = 0 then []
  else
    let start := (s.writeIndex + c - available) % c
    let firstChunk := min available (c - start)
    ((s.buffer.drop start).take firstChunk) ++ s.buffer.take (available - firstChunk)

/-- Writing a whole list of frames in order, starting from a given state. -/
def writeFrames (s : RingState) (frames : List (List ℚ)) : RingState :=
  frames.foldl writeRingBuffer s

/-- Buffer/write-index invariant tying a ring state to the stream of all
samples written so far: the capacity is fixed, the write index is the
stream length modulo capacity, and every position still backed by one of
the last `capacity` written samples holds that sample. -/
def BufInv (c : ℕ) (stream : List ℚ) (s : RingState) : Prop :=
  s.buffer.length = c ∧ s.writeIndex = stream.length % c ∧
  ∀ q : ℕ, q < stream.length → stream.length ≤ q + c → s.buffer[q % c]? = stream[q]?

/-- Full ring invariant: buffer invariant plus `filled` being the stream
length capped at capacity. -/
def Inv (c : ℕ) (stream : List ℚ) (s : RingState) : Prop :=
  BufInv c stream s ∧ s.filled = min stream.length c

end Ring

namespace Gain

/-- `MIN_STANDARD_DEVIATION` from `src/constants.ts` (1e-6), as a rational. -/
def MIN_STANDARD_DEVIATION : ℚ := 1 / 1000000

/-- `MAX_WAVEFORM_GAIN` from `src/constants.ts`. -/
def MAX_WAVEFORM_GAIN : ℚ := 64

/-- `WAVEFORM_SILENCE_THRESHOLD` from `src/constants.ts` (1e-4). -/
def WAVEFORM_SILENCE_THRESHOLD : ℚ := 1 / 10000

/-- Per-channel display gain state, from `waveformGainState` in
`src/visuals.ts`. -/
structure GainState where
  gain : ℚ
  framesSincePeak : ℕ
deriving DecidableEq, Repr

/-- `resetWaveformGains` from `src/visuals.ts`, for one channel. -/
def resetWaveformGains : GainState :=
  { gain := 1, framesSincePeak := 0 }

/-- The branch cascade of `drawGroupVisuals` (src/visuals.ts lines 377-407)
that computes the candidate gain and hold counter for the frame from the
frame's peak absolute sample `maxAbs`, before the finiteness/positivity
guard and the hard ceiling are applied.  Exact arithmetic over `ℚ`; the
`Number.isFinite` guard of the source can only fire on the non-positive
side here, since `ℚ` has no non-finite values. -/
def updateGainCore (st : GainState) (maxAbs : ℚ) : ℚ × ℕ :=
  let gain := st.gain
  let scaledMax := maxAbs * gain
  if 1 < scaledMax then
    (1 / max maxAbs MIN_STANDARD_DEVIATION, 0)
  else if (98 : ℚ) / 100 ≤ scaledMax then
    (gain, 0)
  else if maxAbs < WAVEFORM_SILENCE_THRESHOLD then
    (gain, 0)
  else
    let fsp := st.framesSincePeak + 1
    if 30 ≤ fsp then
      let bumped := gain * (101 / 100)
      if 1 < maxAbs * bumped then
        (1 / max maxAbs MIN_STANDARD_DEVIATION, 0)
      else
        (bumped, fsp)
    else
      (gain, fsp)

/-- The complete per-frame gain update of `drawGroupVisuals`
(src/visuals.ts lines 377-412): branch cascade, then the
non-finite/non-positive guard (`gain = 1`), then the hard ceiling
`min gain MAX_WAVEFORM_GAIN` stored back into the state. -/
def updateWaveformGain (st : GainState) (maxAbs : ℚ) : GainState :=
  let core := updateGainCore st maxAbs
  let guarded := if core.1 ≤ 0 then 1 else core.1
  { gain := min guarded MAX_WAVEFORM_GAIN, framesSincePeak := core.2 }

end Gain

namespace Win

/-- `calculateCycleSamples` from `src/visuals.ts`:
`max(round(sampleRate / max(minFrequency, 1)), 1)`.  `Math.round` rounds
half away from zero toward positive infinity, which is Lean's `round` on
`ℚ`. -/
def calculateCycleSamples (minFrequency sampleRate : ℚ) : ℕ :=
  max (round (sampleRate / max minFrequency 1)).toNat 1

/-- The `displayCycles` ladder of `drawGroupVisuals` (src/visuals.ts
lines 370-372): the number of waveform cycles to display, chosen from the
number of cycles available in the buffered data. -/
def displayCycles (availableCycles : ℚ) : ℚ :=
  if 4 ≤ availableCycles then 4
  else if 3 ≤ availableCycles then 3
  else if 2 ≤ availableCycles then 2
  else if 1 ≤ availableCycles then 1
  else 1 / 2

/-- The `windowLength` computation of `drawGroupVisuals` (src/visuals.ts
lines 369-373): `availableCycles = values.length / max(cycleLength, 1)`,
then `min(values.length, max(round(displayCycles * cycleLength), 1))`. -/
def windowLengthOf (cycleLength valuesLen : ℕ) : ℕ :=
  let availableCycles : ℚ := (valuesLen : ℚ) / max (cycleLength : ℚ) 1
  min valuesLen (max (round (displayCycles availableCycles * (cycleLength : ℚ))).toNat 1)

/-- Modelled from the spec: the window length as the claim describes it —
largest whole number of cycles (4, 3, 2 or 1) that fits into the available
samples, else half a cycle rounded half-up, never more than the available
samples and never less than one sample.  Used only to state the amended
form of the window-length claim against `windowLengthOf`. -/
def specWindowLength (c len : ℕ) : ℕ :=
  if 4 * c ≤ len then 4 * c
  else if 3 * c ≤ len then 3 * c
  else if 2 * c ≤ len then 2 * c
  else if c ≤ len then c
  else min len (max ((c + 1) / 2) 1)

end Win

namespace AG

/-- A JavaScript number argument, distinguishing the non-finite values that
`Number.isFinite` rejects from finite (exact rational) values. -/
inductive JSNumber where
  | finite (val : ℚ)
  | nan
  | posInf
  | negInf
deriving DecidableEq, Repr

/-- Whether `Number.isFinite` accepts the value. -/
def JSNumber.isFiniteNum : JSNumber → Bool
  | .finite _ => true
  | _ => false

/-- The JavaScript comparison `d <= 0` (false on NaN, false on +Infinity,
true on -Infinity). -/
def JSNumber.leZero : JSNumber → Bool
  | .finite v => decide (v ≤ 0)
  | .nan => false
  | .posInf => false
  | .negInf => true

/-- A stored per-channel loudness snapshot as the auto-gain manager keeps
it.  The analysis fields are kept abstract as exact rationals here (they
are produced by the externally-modelled measurement, see `Rec.recordLoop`
for the faithful real-valued analysis). -/
structure SnapQ where
  rms : Option ℚ
  peak : Option ℚ
  loudnessDb : Option ℚ
deriving DecidableEq, Repr

/-- What one completed `runMeasurement` produced: the two recorded
snapshots and the gains `computeAutoGains` derived from them.  These come
from the external recorder/decoder world, so the state-machine model takes
them as an input of the completion event. -/
structure MeasureOutcome where
  snapA : SnapQ
  snapB : SnapQ
  gains : ℚ × ℚ
deriving DecidableEq, Repr

/-- The mutable state of one `createAutoGainManager` instance
(src/autoGain.ts lines 140-146), together with two pieces of bookkeeping
that make the asynchronous control flow explicit:
`retryCallbacks` records, in attachment order, the durations of the
`measurementPromise.then(() => measure(duration))` continuations that
superseded callers have attached to the currently in-flight promise, and
`startedRuns` logs every duration passed to `runMeasurement`, in start
order. -/
structure AutoGainState where
  measurements : SnapQ × SnapQ
  autoGains : ℚ × ℚ
  inFlightDuration : Option ℚ
  queuedDuration : Option ℚ
  retryCallbacks : List ℚ
  startedRuns : List ℚ
deriving DecidableEq, Repr

/-- What `measure` hands back to its caller: either a promise that is
already resolved with the given gains (the invalid-duration early return),
or a promise that settles later. -/
inductive MeasureReturn where
  | resolved (gains : ℚ × ℚ)
  | pending
deriving DecidableEq, Repr

/-- The initial manager state (src/autoGain.ts lines 140-146). -/
def initialAutoGainState : AutoGainState :=
  { measurements := (⟨none, none, none⟩, ⟨none, none, none⟩)
    autoGains := (1, 1)
    inFlightDuration := none
    queuedDuration := none
    retryCallbacks := []
    startedRuns := [] }

/-- The synchronous effect of one call to `measure(durationSeconds)`
(src/autoGain.ts lines 159-182).  A non-finite or non-positive duration
returns the stored gains at once without touching any state.  If a
measurement is in flight, the duration is recorded as the latest queued
duration and the caller chains `measurementPromise.then(() => measure(d))`
onto the in-flight promise (recorded in `retryCallbacks`).  Otherwise a
new `runMeasurement` starts immediately (the `measure` body runs
synchronously to its return, since it never awaits). -/
def measureCall (d : JSNumber) (s : AutoGainState) : AutoGainState × MeasureReturn :=
  if ¬ d.isFiniteNum ∨ d.leZero then
    (s, .resolved s.autoGains)
  else
    match d with
    | .finite v =>
        if s.inFlightDuration.isSome then
          ({ s with queuedDuration := some v
                    retryCallbacks := s.retryCallbacks ++ [v] }, .pending)
        else
          ({ s with inFlightDuration := some v
                    startedRuns := s.startedRuns ++ [v] }, .pending)
    | _ => (s, .resolved s.autoGains)

/-- The microtask cascade that runs when the in-flight `runMeasurement`
settles (src/autoGain.ts lines 149-157 and 168-180), in JavaScript
resolution order:
1. on success the `runMeasurement` body stores the new snapshots and
   gains (`outcome = some o`); on failure the `catch` handler recovers and
   stores nothing (`outcome = none`);
2. the `finally` handler reads the queued duration, clears the in-flight
   slot and the queue, and — if a duration was queued — synchronously
   calls `measure` with it, which starts a fresh run and fills the
   in-flight slot again;
3. only then does `measurementPromise` resolve, so the `then`
   continuations the superseded callers attached to it fire, in order,
   each calling `measure` with its own duration against the state left by
   step 2. -/
def completeRun (outcome : Option MeasureOutcome) (s : AutoGainState) : AutoGainState :=
  match s.inFlightDuration with
  | none => s
  | some _ =>
      let sMeasured :=
        match outcome with
        | some o => { s with measurements := (o.snapA, o.snapB), autoGains := o.gains }
        | none => s
      let retries := sMeasured.retryCallbacks
      let nextDuration := sMeasured.queuedDuration
      let sCleared := { sMeasured with inFlightDuration := none
                                       queuedDuration := none
                                       retryCallbacks := [] }
      let sRestarted :=
        match nextDuration with
        | some d2 => (measureCall (.finite d2) sCleared).1
        | none => sCleared
      retries.foldl (fun acc d2 => (measureCall (.finite d2) acc).1) sRestarted

/-- The state after `measure(1)`, then `measure(2)` issued while the first
measurement is in flight, then two measurement completions (both failing,
i.e. state-preserving on the snapshot side — the run bookkeeping is the
same for any outcome). -/
def pairCallTrace : AutoGainState :=
  let s1 := (measureCall (.finite 1) initialAutoGainState).1
  let s2 := (measureCall (.finite 2) s1).1
  let s3 := completeRun none s2
  completeRun none s3

end AG

namespace Rec

/-- `MIN_RMS` from `src/autoGain.ts` (1e-6), as a real. -/
noncomputable def MIN_RMS : ℝ := 1 / 1000000

/-- `MIN_AUTO_GAIN` from `src/autoGain.ts`. -/
noncomputable def MIN_AUTO_GAIN : ℝ := 1 / 10

/-- `MAX_AUTO_GAIN` from `src/autoGain.ts`. -/
noncomputable def MAX_AUTO_GAIN : ℝ := 4

/-- `TARGET_RMS_CAP` from `src/autoGain.ts` (0.35). -/
noncomputable def TARGET_RMS_CAP : ℝ := 35 / 100

/-- `clamp` from `src/autoGain.ts`: `Math.min(max, Math.max(min, value))`. -/
noncomputable def clamp (value lo hi : ℝ) : ℝ := min hi (max lo value)

/-- `LoudnessSnapshot` from `src/autoGain.ts`; the recorded `Blob` is
modelled by its byte size. -/
structure LoudnessSnapshot where
  rms : Option ℝ
  peak : Option ℝ
  loudnessDb : Option ℝ
  blob : Option ℕ

/-- `analyzeAudioBuffer` from `src/autoGain.ts`: an `AudioBuffer` is
modelled by its per-channel sample data and its frame count.  Sum of
squares and the running peak range over every sample of every channel;
`rms = sqrt(sum / (length * channelCount))`; values at or below `MIN_RMS`
are reported as null; `loudnessDb = 20 * log10(rms)` when the normalized
rms is non-null (it is then positive, so never the falsy 0). -/
noncomputable def analyzeAudioBuffer (channels : List (List ℝ)) (bufLength : ℕ) :
    LoudnessSnapshot :=
  if channels.length = 0 ∨ bufLength = 0 then ⟨none, none, none, none⟩
  else
    let sum := (channels.map fun data => (data.map fun v => v * v).sum).sum
    let peak := channels.foldl (fun p data =>
      data.foldl (fun p v => if p < |v| then |v| else p) p) 0
    let totalSamples := bufLength * channels.length
    let rms := if 0 < totalSamples then Real.sqrt (sum / (totalSamples : ℝ)) else 0
    let normalizedRms := if MIN_RMS < rms then some rms else none
    let loudnessDb :=
      match normalizedRms with
      | some r => some (20 * (Real.log r / Real.log 10))
      | none => none
    ⟨normalizedRms, if MIN_RMS < peak then some peak else none, loudnessDb, none⟩

/-- How the recorder's stop phase resolved: the fail-safe timeout fired
(`resolve(new Blob())`, an empty blob), `recorder.stop()` threw (also
resolved with an empty blob), or it returned a blob of the given size. -/
inductive StopOutcome where
  | timeout
  | stopFailed
  | stopped (blobSize : ℕ)
deriving DecidableEq, Repr

/-- The externally-determined outcomes of every fallible collaborator that
`recordLoop` consults: `Tone.Recorder.supported`, whether the monitor bus
node exists and is a `Tone.Gain`, whether `recorder.start()` resolved,
how the stop phase resolved, and the decoded audio
(`none` when `blob.arrayBuffer`/`decodeAudioData` rejects). -/
structure RecorderEnv where
  supported : Bool
  monitorBusOk : Bool
  startOk : Bool
  stopOutcome : StopOutcome
  decoded : Option (List (List ℝ) × ℕ)

/-- `recordLoop` from `src/autoGain.ts` (lines 57-119) as a function of the
external outcomes.  Every failure path returns instead of throwing, so the
model is total; real-time waiting (durationMs, the duration+2s fail-safe)
is abstracted into `StopOutcome`, which is the only thing the timers
decide. -/
noncomputable def recordLoop (env : RecorderEnv) (durationSeconds : ℚ) :
    LoudnessSnapshot :=
  if env.supported = false then ⟨none, none, none, none⟩
  else if env.monitorBusOk = false then ⟨none, none, none, none⟩
  else if env.startOk = false then ⟨none, none, none, none⟩
  else
    let blobSize : ℕ :=
      match env.stopOutcome with
      | .timeout => 0
      | .stopFailed => 0
      | .stopped n => n
    if blobSize = 0 then ⟨none, none, none, some blobSize⟩
    else
      match env.decoded with
      | none => ⟨none, none, none, some blobSize⟩
      | some (chans, len) => { analyzeAudioBuffer chans len with blob := some blobSize }

/-- `computeAutoGains` from `src/autoGain.ts` (lines 121-138): collect the
rms values that are numbers above `MIN_RMS`; with none, both gains are 1;
otherwise the target rms is the geometric mean `exp(mean(log rms))`
clamped into `[MIN_RMS, TARGET_RMS_CAP]`, and each channel's gain is
`clamp(target / rms, 0.1, 4)`, or 1 when its rms is null, falsy, or at or
below `MIN_RMS`. -/
noncomputable def computeAutoGains (aRms bRms : Option ℝ) : ℝ × ℝ :=
  let validRms := ([aRms, bRms].filterMap id).filter fun v => decide (MIN_RMS < v)
  if validRms.length = 0 then (1, 1)
  else
    let logMean := (validRms.map Real.log).sum / (validRms.length : ℝ)
    let targetRms := clamp (Real.exp logMean) MIN_RMS TARGET_RMS_CAP
    let normalize : Option ℝ → ℝ := fun v =>
      match v with
      | none => 1
      | some v => if v ≤ MIN_RMS then 1 else clamp (targetRms / v) MIN_AUTO_GAIN MAX_AUTO_GAIN
    (normalize aRms, normalize bRms)

end Rec

namespace Corr

/-- `SCORE_EPSILON` from `findBestCorrelationStart` in `src/visuals.ts`
(1e-4). -/
noncomputable def SCORE_EPSILON : ℝ := 1 / 10000

/-- `MIN_STANDARD_DEVIATION` from `src/constants.ts`, as a real. -/
noncomputable def MIN_STANDARD_DEVIATION : ℝ := 1 / 1000000

/-- Indexing a sample array: out-of-range reads never occur on the paths
the theorems cover, so the default 0 is never consulted there. -/
noncomputable def sampleAt (values : List ℝ) (i : ℕ) : ℝ := values.getD i 0

/-- The reference-window standard deviation of `findBestCorrelationStart`:
mean and variance of `reference[0..windowLength)`, variance floored at 0,
standard deviation floored at `MIN_STANDARD_DEVIATION`. -/
noncomputable def refStdOf (reference : List ℝ) (windowLength : ℕ) : ℝ :=
  let refSum := ∑ i ∈ Finset.range windowLength, sampleAt reference i
  let refSqSum := ∑ i ∈ Finset.range windowLength, sampleAt reference i * sampleAt reference i
  let refMean := refSum / (windowLength : ℝ)
  let refVariance := max (refSqSum / (windowLength : ℝ) - refMean * refMean) 0
  max (Real.sqrt refVariance) MIN_STANDARD_DEVIATION

/-- The per-candidate correlation numerator of `findBestCorrelationStart`:
`dotProduct - windowLength * windowMean * refMean` for the window of
`values` starting at `start`. -/
noncomputable def corrNum (values reference : List ℝ) (windowLength start : ℕ) : ℝ :=
  let windowSum := ∑ i ∈ Finset.range windowLength, sampleAt values (start + i)
  let refSum := ∑ i ∈ Finset.range windowLength, sampleAt reference i
  let dotProduct := ∑ i ∈ Finset.range windowLength,
    sampleAt values (start + i) * sampleAt reference i
  let windowMean := windowSum / (windowLength : ℝ)
  let refMean := refSum / (windowLength : ℝ)
  dotProduct - (windowLength : ℝ) * windowMean * refMean

/-- The per-candidate correlation denominator of
`findBestCorrelationStart`: `windowLength * windowStd * refStd`, each
standard deviation floored at `MIN_STANDARD_DEVIATION`. -/
noncomputable def corrDen (values reference : List ℝ) (windowLength start : ℕ) : ℝ :=
  let windowSum := ∑ i ∈ Finset.range windowLength, sampleAt values (start + i)
  let windowSqSum := ∑ i ∈ Finset.range windowLength,
    sampleAt values (start + i) * sampleAt values (start + i)
  let windowMean := windowSum / (windowLength : ℝ)
  let windowVariance := max (windowSqSum / (windowLength : ℝ) - windowMean * windowMean) 0
  let windowStd := max (Real.sqrt windowVariance) MIN_STANDARD_DEVIATION
  (windowLength : ℝ) * windowStd * refStdOf reference windowLength

/-- The Pearson correlation score of the candidate window at `start`, on
the non-degenerate path (`denominator > 0`). -/
noncomputable def scoreAt (values reference : List ℝ) (windowLength start : ℕ) : ℝ :=
  corrNum values reference windowLength start / corrDen values reference windowLength start

/-- One iteration of the candidate loop of `findBestCorrelationStart`
(src/visuals.ts lines 262-287).  The running best is
`(some (bestScore, bestDistance), bestStart)`, with `none` standing for
the initial `bestScore = -Infinity` / `bestDistance = Infinity` (both are
replaced together on the first finite-score candidate; against `-Infinity`
the update test `score > bestScore + ε` is true for every finite score and
the tie test `|score - bestScore| <= ε` is false).  A candidate whose
denominator is not positive scores `-Infinity`, for which both tests are
false. -/
noncomputable def stepBest (values reference : List ℝ) (windowLength centerStart : ℕ)
    (st : Option (ℝ × ℝ) × ℕ) (start : ℕ) : Option (ℝ × ℝ) × ℕ :=
  let den := corrDen values reference windowLength start
  let distance : ℝ := |(start : ℝ) - (centerStart : ℝ)|
  if 0 < den then
    let score := corrNum values reference windowLength start / den
    match st.1 with
    | none => (some (score, distance), start)
    | some (bestScore, bestDistance) =>
        if bestScore + SCORE_EPSILON < score then (some (score, distance), start)
        else if |score - bestScore| ≤ SCORE_EPSILON ∧ distance < bestDistance then
          (some (bestScore, distance), start)
        else st
  else st

/-- The evenly-spaced candidate construction of `findBestCorrelationStart`
(src/visuals.ts lines 246-256): `round(startMin + span * i/(budget-1))`
for `i < budget`, skipping a candidate equal to the previously pushed
one. -/
def buildCandidates (startMin span budget : ℕ) : List ℕ :=
  (List.range budget).foldl (fun acc (i : ℕ) =>
    let s := (round ((startMin : ℚ) + (span : ℚ) * (i : ℚ) / ((budget : ℚ) - 1))).toNat
    if acc.getLast? = some s then acc else acc ++ [s]) []

/-- The candidate list `findBestCorrelationStart` evaluates: the single
clamped `centerStart` when the iteration budget is 1, otherwise the evenly
spaced grid over `[startMin, clampedStartMax]`. -/
def candidateList (valuesLen windowLength centerStart startMax maxIterations startMin : ℕ) :
    List ℕ :=
  let clampedStartMax := min startMax (valuesLen - windowLength)
  let totalCandidates := clampedStartMax - startMin + 1
  let iterationBudget := max 1 (min maxIterations totalCandidates)
  if iterationBudget = 1 then [max startMin (min centerStart clampedStartMax)]
  else buildCandidates startMin (clampedStartMax - startMin) iterationBudget

/-- `findBestCorrelationStart` from `src/visuals.ts` (lines 217-293):
returns 0 when the clamped start bound is not positive, otherwise folds
the candidate loop over the evenly spaced candidate list and returns the
final `bestStart` (initially 0). -/
noncomputable def findBestCorrelationStart (values reference : List ℝ)
    (windowLength centerStart startMax maxIterations startMin : ℕ) : ℕ :=
  let clampedStartMax := min startMax (values.length - windowLength)
  if clampedStartMax = 0 then 0
  else
    ((candidateList values.length windowLength centerStart startMax maxIterations
        startMin).foldl (stepBest values reference windowLength centerStart) (none, 0)).2

/-- Invariant of the candidate loop relative to the candidates already
`seen`: while the best score is still `-Infinity` nothing has been seen;
afterwards the recorded `bestStart` is a seen candidate whose true score is
within `SCORE_EPSILON` below the recorded `bestScore` (the tie branch moves
`bestStart` without updating `bestScore`), and every seen candidate scores
at most `bestScore + SCORE_EPSILON` (the update branch only skips
candidates within that margin). -/
def GoodState (values reference : List ℝ) (windowLength : ℕ) (seen : List ℕ)
    (st : Option (ℝ × ℝ) × ℕ) : Prop :=
  match st.1 with
  | none => seen = []
  | some (bs, _) =>
      st.2 ∈ seen ∧
      bs - SCORE_EPSILON ≤ scoreAt values reference windowLength st.2 ∧
      ∀ x ∈ seen, scoreAt values reference windowLength x ≤ bs + SCORE_EPSILON

/-- Reference window for the phase-alignment counterexample: zero mean,
unit standard deviation. -/
noncomputable def refC8 : List ℝ := [1, -1, 1, -1]

/-- Sample buffer for the phase-alignment counterexample: three disjoint
4-sample candidate windows.  The window at 0 scores 0 against `refC8`; the
windows at 4 and 8 are built from the Pythagorean triple
(22223, 246930864, 246930865) so that their Pearson scores are exactly
`+22223/246930865` and `-22223/246930865` — each within the tie epsilon of
0 but more than the epsilon apart from each other. -/
noncomputable def valuesC8 : List ℝ :=
  [1, 1, -1, -1,
   246953087, 246908641, -246908641, -246953087,
   246908641, 246953087, -246953087, -246908641]

end Corr


/-! ## Claim theorems -/

/-- **C1** (code evidence).  `measure(1)` followed by `measure(2)` while the
first measurement is in flight does *not* coalesce to exactly one
additional run: after the in-flight run completes, the `finally` handler
starts the queued run with duration 2, and the superseded caller's chained
`then` continuation — which fires only after the `finally` — finds that
fresh run in flight and queues duration 2 again, so every subsequent
completion starts yet another run.  After two completions three runs have
already been started and a further duration-2 request is still queued. -/
theorem measure_pair_runs_unbounded :
    AG.pairCallTrace.startedRuns = [1, 2, 2] ∧
    AG.pairCallTrace.queuedDuration = some 2 := by decide

/-- **C10**: `measure` called with a non-finite or non-positive duration
starts nothing and immediately resolves with the stored gains, leaving the
whole manager state (gains, snapshots, in-flight slot, queued duration)
unchanged. -/
theorem measure_invalid_duration_is_noop (d : AG.JSNumber) (s : AG.AutoGainState)
    (h : d.isFiniteNum = false ∨ d.leZero = true) :
    AG.measureCall d s = (s, AG.MeasureReturn.resolved s.autoGains) := by
  cases d with
  | finite v =>
      rcases h with h | h
      · simp [AG.JSNumber.isFiniteNum] at h
      · simp only [AG.JSNumber.leZero, decide_eq_true_eq] at h
        simp [AG.measureCall, AG.JSNumber.isFiniteNum, AG.JSNumber.leZero, h]
  | nan => simp [AG.measureCall, AG.JSNumber.isFiniteNum]
  | posInf => simp [AG.measureCall, AG.JSNumber.isFiniteNum]
  | negInf => simp [AG.measureCall, AG.JSNumber.isFiniteNum]

/-- Witness for C10 at the concrete non-finite input NaN. -/
theorem measure_invalid_duration_is_noop_witness :
    AG.measureCall AG.JSNumber.nan AG.initialAutoGainState =
      (AG.initialAutoGainState,
        AG.MeasureReturn.resolved AG.initialAutoGainState.autoGains) :=
  measure_invalid_duration_is_noop AG.JSNumber.nan AG.initialAutoGainState (Or.inl rfl)

/-- **C4**: after every per-frame update — from any prior state — and after
every reset, the stored display gain is positive and at most the hard
ceiling 64 (in this exact-arithmetic model every value is finite), and a
non-positive computed gain is replaced with 1 before being stored. -/
theorem waveform_gain_invariant (st : Gain.GainState) (maxAbs : ℚ) :
    0 < (Gain.updateWaveformGain st maxAbs).gain ∧
    (Gain.updateWaveformGain st maxAbs).gain ≤ 64 ∧
    ((Gain.updateGainCore st maxAbs).1 ≤ 0 → (Gain.updateWaveformGain st maxAbs).gain = 1) ∧
    0 < Gain.resetWaveformGains.gain ∧ Gain.resetWaveformGains.gain ≤ 64 := by
  refine ⟨?_, ?_, ?_, by norm_num [Gain.resetWaveformGains], by norm_num [Gain.resetWaveformGains]⟩
  · by_cases h : (Gain.updateGainCore st maxAbs).1 ≤ 0
    · simp only [Gain.updateWaveformGain, Gain.MAX_WAVEFORM_GAIN, if_pos h, lt_min_iff]
      norm_num
    · simp only [Gain.updateWaveformGain, Gain.MAX_WAVEFORM_GAIN, if_neg h, lt_min_iff]
      push_neg at h
      exact ⟨h, by norm_num⟩
  · simp only [Gain.updateWaveformGain, Gain.MAX_WAVEFORM_GAIN]
    exact min_le_right _ _
  · intro h
    simp only [Gain.updateWaveformGain, Gain.MAX_WAVEFORM_GAIN, h, if_true]
    norm_num

/-- Witness for C4's guard clause: a non-positive stored gain in the
silence branch computes a non-positive candidate gain, which is stored
as 1. -/
theorem waveform_gain_invariant_witness :
    (Gain.updateGainCore ⟨-1, 0⟩ 0).1 ≤ 0 ∧
    (Gain.updateWaveformGain ⟨-1, 0⟩ 0).gain = 1 :=
  ⟨by norm_num [Gain.updateGainCore, Gain.WAVEFORM_SILENCE_THRESHOLD],
   (waveform_gain_invariant ⟨-1, 0⟩ 0).2.2.1
     (by norm_num [Gain.updateGainCore, Gain.WAVEFORM_SILENCE_THRESHOLD])⟩

/-- **C3**: in a frame with clip risk (`maxAbs * gain > 1`), starting from
any stored gain in the invariant range `(0, 64]`, the gain is recomputed in
that same frame to `1 / max(maxAbs, epsilon)` and the stored (applied)
gain then satisfies `appliedGain * maxAbs ≤ 1` exactly. -/
theorem adaptive_gain_clip_attack (st : Gain.GainState) (maxAbs : ℚ)
    (hg : 0 < st.gain) (hle : st.gain ≤ 64) (hclip : 1 < maxAbs * st.gain) :
    (Gain.updateWaveformGain st maxAbs).gain = 1 / max maxAbs Gain.MIN_STANDARD_DEVIATION ∧
    (Gain.updateWaveformGain st maxAbs).gain * maxAbs ≤ 1 := by
  have hmaxAbs : 1 / 64 < maxAbs := by nlinarith
  have hmax : max maxAbs Gain.MIN_STANDARD_DEVIATION = maxAbs := by
    rw [max_eq_left]
    rw [Gain.MIN_STANDARD_DEVIATION]
    linarith
  have hcore : Gain.updateGainCore st maxAbs = (1 / max maxAbs Gain.MIN_STANDARD_DEVIATION, 0) := by
    simp only [Gain.updateGainCore, if_pos hclip]
  have hpos : 0 < 1 / max maxAbs Gain.MIN_STANDARD_DEVIATION := by
    rw [hmax]; positivity
  have hstored : (Gain.updateWaveformGain st maxAbs).gain =
      1 / max maxAbs Gain.MIN_STANDARD_DEVIATION := by
    simp only [Gain.updateWaveformGain, hcore, Gain.MAX_WAVEFORM_GAIN]
    rw [if_neg (by linarith), min_eq_left]
    rw [hmax]
    rw [div_le_iff₀ (by linarith)]
    linarith
  refine ⟨hstored, ?_⟩
  rw [hstored, hmax, div_mul_eq_mul_div, one_mul, div_le_one (by linarith)]

/-- Witness for C3 at stored gain 1 and frame peak 2. -/
theorem adaptive_gain_clip_attack_witness :
    (Gain.updateWaveformGain ⟨1, 0⟩ 2).gain = 1 / max 2 Gain.MIN_STANDARD_DEVIATION ∧
    (Gain.updateWaveformGain ⟨1, 0⟩ 2).gain * 2 ≤ 1 :=
  adaptive_gain_clip_attack ⟨1, 0⟩ 2 (by norm_num) (by norm_num) (by norm_num)

/-- **C5** (counterexample).  With a minimum frequency of 441 Hz at a
44100 Hz sample rate the cycle length is 100 samples; with 350 buffered
samples available the code displays 3 whole cycles and uses a window of
300 samples, not `min(4 * cycleSamples, available) = 350` as claimed. -/
theorem window_length_counterexample :
    Win.windowLengthOf (Win.calculateCycleSamples 441 44100) 350 = 300 ∧
    min (4 * Win.calculateCycleSamples 441 44100) 350 = 350 := by
  have hc : Win.calculateCycleSamples 441 44100 = 100 := by
    norm_num [Win.calculateCycleSamples]; decide
  rw [hc]
  constructor
  · norm_num [Win.windowLengthOf, Win.displayCycles]; decide
  · norm_num

/-- `Math.round(cycleLength / 2)` for a natural cycle length is `(c+1)/2`
in natural-number division (round half up). -/
theorem round_half_nat (c : ℕ) : (round ((1 / 2 : ℚ) * (c : ℚ))).toNat = (c + 1) / 2 := by
  obtain ⟨m, hm⟩ : ∃ m, m = (c + 1) / 2 := ⟨_, rfl⟩
  rw [← hm]
  have h1 : 2 * m ≤ c + 1 := by omega
  have h2 : c + 1 < 2 * m + 2 := by omega
  have h1q : 2 * (m : ℚ) ≤ (c : ℚ) + 1 := by exact_mod_cast h1
  have h2q : (c : ℚ) + 1 < 2 * (m : ℚ) + 2 := by exact_mod_cast h2
  have hr : round ((1 / 2 : ℚ) * (c : ℚ)) = (m : ℤ) := by
    rw [round_eq, Int.floor_eq_iff]
    constructor
    · push_cast
      linarith
    · push_cast
      linarith
  rw [hr, Int.toNat_natCast]

/-- **C5** (amended).  The window length the code uses equals the
spec-modelled quantized form `specWindowLength`: the largest whole number
of cycles among 4, 3, 2, 1 that fits in the available samples (not the raw
clamp `min(4 * cycleSamples, available)`), falling back to half a cycle
(rounded half-up, at least one sample, at most the available length) when
not even one cycle fits; consequently it never exceeds
`min(4 * cycleSamples, available)`. -/
theorem window_length_amended (c len : ℕ) (hc : 1 ≤ c) :
    Win.windowLengthOf c len = Win.specWindowLength c len ∧
    Win.windowLengthOf c len ≤ min (4 * c) len := by
  have hcq : (1 : ℚ) ≤ (c : ℚ) := by exact_mod_cast hc
  have hc0 : (0 : ℚ) < (c : ℚ) := by linarith
  have hmaxc : max (c : ℚ) 1 = (c : ℚ) := max_eq_left hcq
  have hcast : ∀ d : ℕ, ((d : ℚ) ≤ (len : ℚ) / (c : ℚ)) ↔ d * c ≤ len := by
    intro d
    rw [le_div_iff₀ hc0]
    exact_mod_cast Iff.rfl
  have hround : ∀ d : ℕ, (round ((d : ℚ) * (c : ℚ))).toNat = d * c := by
    intro d
    rw [show ((d : ℚ) * (c : ℚ)) = ((d * c : ℕ) : ℚ) by push_cast; ring, round_natCast,
      Int.toNat_natCast]
  simp only [Win.windowLengthOf, Win.specWindowLength, hmaxc]
  by_cases h4 : 4 * c ≤ len
  · have h4q : (4 : ℚ) ≤ (len : ℚ) / (c : ℚ) := by
      rw [show (4 : ℚ) = ((4 : ℕ) : ℚ) by norm_num, hcast]; exact h4
    simp only [Win.displayCycles, if_pos h4q, if_pos h4]
    rw [show ((4 : ℚ) * (c : ℚ)) = (((4 : ℕ) : ℚ) * (c : ℚ)) by norm_num, hround]
    constructor
    · rw [max_eq_left (by omega), min_eq_right h4]
    · omega
  · have h4q : ¬ (4 : ℚ) ≤ (len : ℚ) / (c : ℚ) := by
      rw [show (4 : ℚ) = ((4 : ℕ) : ℚ) by norm_num, hcast]; exact h4
    by_cases h3 : 3 * c ≤ len
    · have h3q : (3 : ℚ) ≤ (len : ℚ) / (c : ℚ) := by
        rw [show (3 : ℚ) = ((3 : ℕ) : ℚ) by norm_num, hcast]; exact h3
      simp only [Win.displayCycles, if_neg h4q, if_pos h3q, if_neg h4, if_pos h3]
      rw [show ((3 : ℚ) * (c : ℚ)) = (((3 : ℕ) : ℚ) * (c : ℚ)) by norm_num, hround]
      constructor
      · rw [max_eq_left (by omega), min_eq_right h3]
      · rw [max_eq_left (by omega), min_eq_right h3]; omega
    · have h3q : ¬ (3 : ℚ) ≤ (len : ℚ) / (c : ℚ) := by
        rw [show (3 : ℚ) = ((3 : ℕ) : ℚ) by norm_num, hcast]; exact h3
      by_cases h2 : 2 * c ≤ len
      · have h2q : (2 : ℚ) ≤ (len : ℚ) / (c : ℚ) := by
          rw [show (2 : ℚ) = ((2 : ℕ) : ℚ) by norm_num, hcast]; exact h2
        simp only [Win.displayCycles, if_neg h4q, if_neg h3q, if_pos h2q, if_neg h4,
          if_neg h3, if_pos h2]
        rw [show ((2 : ℚ) * (c : ℚ)) = (((2 : ℕ) : ℚ) * (c : ℚ)) by norm_num, hround]
        constructor
        · rw [max_eq_left (by omega), min_eq_right h2]
        · rw [max_eq_left (by omega), min_eq_right h2]; omega
      · have h2q : ¬ (2 : ℚ) ≤ (len : ℚ) / (c : ℚ) := by
          rw [show (2 : ℚ) = ((2 : ℕ) : ℚ) by norm_num, hcast]; exact h2
        by_cases h1 : c ≤ len
        · have h1n : 1 * c ≤ len := by omega
          have h1q : (1 : ℚ) ≤ (len : ℚ) / (c : ℚ) := by
            rw [show (1 : ℚ) = ((1 : ℕ) : ℚ) by norm_num, hcast]; exact h1n
          simp only [Win.displayCycles, if_neg h4q, if_neg h3q, if_neg h2q, if_pos h1q,
            if_neg h4, if_neg h3, if_neg h2, if_pos h1]
          rw [show ((1 : ℚ) * (c : ℚ)) = (((1 : ℕ) : ℚ) * (c : ℚ)) by norm_num, hround]
          constructor
          · rw [max_eq_left (by omega), min_eq_right (by omega)]; omega
          · rw [max_eq_left (by omega), min_eq_right (by omega)]; omega
        · have h1n : ¬ 1 * c ≤ len := by omega
          have h1q : ¬ (1 : ℚ) ≤ (len : ℚ) / (c : ℚ) := by
            rw [show (1 : ℚ) = ((1 : ℕ) : ℚ) by norm_num, hcast]; exact h1n
          simp only [Win.displayCycles, if_neg h4q, if_neg h3q, if_neg h2q, if_neg h1q,
            if_neg h4, if_neg h3, if_neg h2, if_neg h1]
          rw [round_half_nat]
          constructor
          · rfl
          · omega

/-- Witness for C5's amended claim at cycle length 100 and 350 available
samples. -/
theorem window_length_amended_witness :
    Win.windowLengthOf 100 350 = Win.specWindowLength 100 350 ∧
    Win.windowLengthOf 100 350 ≤ min (4 * 100) 350 :=
  window_length_amended 100 350 (by norm_num)

/-- **C9**: every failure path of `recordLoop` — recorder unsupported,
monitor bus missing, start failure, stop timeout (empty capture), stop
failure, empty captured blob, or decode failure — resolves with a snapshot
whose `rms`, `peak` and `loudnessDb` are all null, rather than raising
(the model is a total function: every branch returns). -/
theorem recordLoop_failure_yields_null (env : Rec.RecorderEnv) (d : ℚ)
    (h : env.supported = false ∨ env.monitorBusOk = false ∨ env.startOk = false ∨
      env.stopOutcome = Rec.StopOutcome.timeout ∨
      env.stopOutcome = Rec.StopOutcome.stopFailed ∨
      env.stopOutcome = Rec.StopOutcome.stopped 0 ∨ env.decoded = none) :
    (Rec.recordLoop env d).rms = none ∧ (Rec.recordLoop env d).peak = none ∧
    (Rec.recordLoop env d).loudnessDb = none := by
  obtain ⟨sup, bus, stOk, so, dec⟩ := env
  simp only at h
  rcases h with h | h | h | h | h | h | h
  · subst h; simp [Rec.recordLoop]
  · subst h; cases sup <;> simp [Rec.recordLoop]
  · subst h; cases sup <;> cases bus <;> simp [Rec.recordLoop]
  · subst h; cases sup <;> cases bus <;> cases stOk <;> simp [Rec.recordLoop]
  · subst h; cases sup <;> cases bus <;> cases stOk <;> simp [Rec.recordLoop]
  · subst h; cases sup <;> cases bus <;> cases stOk <;> simp [Rec.recordLoop]
  · subst h
    cases sup <;> cases bus <;> cases stOk <;> rcases so with _ | _ | n <;>
      simp [Rec.recordLoop]

/-- Witness for C9 at a concrete failing environment (unsupported
recorder, missing bus, failed start, timed-out stop, no decode). -/
theorem recordLoop_failure_yields_null_witness :
    (Rec.recordLoop ⟨false, false, false, Rec.StopOutcome.timeout, none⟩ 1).rms = none ∧
    (Rec.recordLoop ⟨false, false, false, Rec.StopOutcome.timeout, none⟩ 1).peak = none ∧
    (Rec.recordLoop ⟨false, false, false, Rec.StopOutcome.timeout, none⟩ 1).loudnessDb = none :=
  recordLoop_failure_yields_null ⟨false, false, false, Rec.StopOutcome.timeout, none⟩ 1
    (Or.inl rfl)

namespace Ring

theorem bufInv_init (c : ℕ) : BufInv c [] (initRing c) := by
  refine ⟨by simp [initRing], by simp [initRing], ?_⟩
  intro q hq _
  simp at hq

theorem bufInv_writeSample {c : ℕ} {stream : List ℚ} {s : RingState} (hc : 0 < c)
    (h : BufInv c stream s) (v : ℚ) : BufInv c (stream ++ [v]) (writeSample s v) := by
  obtain ⟨hlen, hwi, hcontent⟩ := h
  have hwilt : s.writeIndex < c := by rw [hwi]; exact Nat.mod_lt _ hc
  refine ⟨by simp [writeSample, hlen], ?_, ?_⟩
  · show (if (s.buffer.set s.writeIndex v).length ≤ s.writeIndex + 1 then 0
        else s.writeIndex + 1) = (stream ++ [v]).length % c
    rw [List.length_set, hlen, List.length_append, List.length_singleton, hwi]
    have hm : (stream.length + 1) % c = (stream.length % c + 1) % c :=
      (Nat.mod_add_mod stream.length c 1).symm
    have hmlt := Nat.mod_lt stream.length hc
    by_cases hE : c ≤ stream.length % c + 1
    · rw [if_pos hE, hm, show stream.length % c + 1 = c by omega, Nat.mod_self]
    · rw [if_neg hE, hm]
      exact (Nat.mod_eq_of_lt (by omega)).symm
  · intro q hq hq2
    simp only [List.length_append, List.length_singleton] at hq hq2
    by_cases hqe : q = stream.length
    · subst hqe
      rw [List.getElem?_concat_length stream v]
      show (s.buffer.set s.writeIndex v)[stream.length % c]? = some v
      rw [← hwi]
      exact List.getElem?_set_self (by rw [hlen]; exact hwilt)
    · have hqlt : q < stream.length := by omega
      rw [List.getElem?_append_left (by simpa using hqlt)]
      show (s.buffer.set s.writeIndex v)[q % c]? = stream[q]?
      have hne : s.writeIndex ≠ q % c := by
        rw [hwi]
        intro hEq
        have hdvd : c ∣ stream.length - q :=
          (Nat.modEq_iff_dvd' (le_of_lt hqlt)).mp hEq.symm
        have := Nat.le_of_dvd (by omega) hdvd
        omega
      rw [List.getElem?_set_ne hne]
      exact hcontent q hqlt (by omega)

theorem bufInv_foldl {c : ℕ} (hc : 0 < c) (frame : List ℚ) :
    ∀ {stream : List ℚ} {s : RingState}, BufInv c stream s →
      BufInv c (stream ++ frame) (frame.foldl writeSample s) := by
  induction frame with
  | nil => intro stream s h; simpa using h
  | cons v vs ih =>
      intro stream s h
      have h2 := ih (bufInv_writeSample hc h v)
      simpa [List.append_assoc] using h2

theorem inv_init (c : ℕ) : Inv c [] (initRing c) :=
  ⟨bufInv_init c, by simp [initRing]⟩

theorem inv_writeRingBuffer {c : ℕ} (hc : 0 < c) {stream : List ℚ} {s : RingState}
    (h : Inv c stream s) (frame : List ℚ) :
    Inv c (stream ++ frame) (writeRingBuffer s frame) := by
  obtain ⟨hbuf, hfill⟩ := h
  have hbuf' := bufInv_foldl hc frame hbuf
  refine ⟨hbuf', ?_⟩
  show min (frame.foldl writeSample s).buffer.length (s.filled + frame.length) =
    min (stream ++ frame).length c
  rw [hbuf'.1, hfill, List.length_append]
  omega

theorem inv_writeFrames {c : ℕ} (hc : 0 < c) (frames : List (List ℚ)) :
    ∀ {stream : List ℚ} {s : RingState}, Inv c stream s →
      Inv c (stream ++ frames.flatten) (writeFrames s frames) := by
  induction frames with
  | nil => intro stream s h; simpa [writeFrames] using h
  | cons f fs ih =>
      intro stream s h
      have h2 := ih (inv_writeRingBuffer hc h f)
      simpa [writeFrames, List.append_assoc] using h2

theorem readRingBuffer_eq_of_inv {c : ℕ} (hc : 0 < c) {stream : List ℚ} {s : RingState}
    (h : Inv c stream s) (n : ℕ) :
    readRingBuffer s n = stream.drop (stream.length - min n (min stream.length c)) := by
  obtain ⟨⟨hlen, hwi, hcontent⟩, hfill⟩ := h
  have havail : min n (min s.filled s.buffer.length) = min n (min stream.length c) := by
    rw [hfill, hlen]
    omega
  have haL : min n (min stream.length c) ≤ stream.length := by omega
  have haC : min n (min stream.length c) ≤ c := by omega
  show (if min n (min s.filled s.buffer.length) = 0 then ([] : List ℚ) else _) = _
  rw [havail]
  by_cases ha0 : min n (min stream.length c) = 0
  · rw [if_pos ha0, ha0, Nat.sub_zero, List.drop_length]
  · rw [if_neg ha0]
    set a := min n (min stream.length c) with ha
    set L := stream.length with hL
    set start := (s.writeIndex + s.buffer.length - a) % s.buffer.length with hstartdef
    set fc := min a (s.buffer.length - start) with hfc
    have hstart_lt : start < c := by
      rw [hstartdef, hlen]
      exact Nat.mod_lt _ hc
    have hstart_val : start = (L - a) % c := by
      rw [hstartdef, hlen, hwi]
      rw [show L % c + c - a = L % c + (c - a) by omega, Nat.mod_add_mod,
        show L + (c - a) = L - a + c by omega, Nat.add_mod_right]
    have hfc_le : fc ≤ c - start := by rw [hfc, hlen]; omega
    have hfc_lea : fc ≤ a := by rw [hfc]; omega
    have hlenL : ((s.buffer.drop start).take fc).length = fc := by
      simp [hlen]
      omega
    have hlenR : (s.buffer.take (a - fc)).length = a - fc := by
      simp [hlen]
      omega
    have hmodkey : ∀ i, i < a → s.buffer[(L - a + i) % c]? = stream[L - a + i]? := by
      intro i hi
      exact hcontent (L - a + i) (by omega) (by omega)
    apply List.ext_getElem?_iff.mpr
    intro i
    by_cases hi : i < a
    · have hrhs : (stream.drop (L - a))[i]? = stream[L - a + i]? := List.getElem?_drop _ _ _
      rw [hrhs]
      by_cases hifc : i < fc
      · rw [List.getElem?_append_left (by rw [hlenL]; exact hifc),
          List.getElem?_take_of_lt hifc, List.getElem?_drop]
        have hidx : start + i = (L - a + i) % c := by
          have h1 : (L - a + i) % c = ((L - a) % c + i) % c := (Nat.mod_add_mod _ _ _).symm
          rw [h1, ← hstart_val, Nat.mod_eq_of_lt (by omega)]
        rw [hidx]
        exact hmodkey i hi
      · have hfci : fc ≤ i := by omega
        rw [List.getElem?_append_right (by rw [hlenL]; exact hfci), hlenL,
          List.getElem?_take_of_lt (by omega)]
        have hfc_eq : fc = c - start := by
          rw [hfc, hlen]
          omega
        have hidx : i - fc = (L - a + i) % c := by
          have h1 : (L - a + i) % c = ((L - a) % c + i) % c := (Nat.mod_add_mod _ _ _).symm
          rw [h1, ← hstart_val]
          rw [show start + i = (i - fc) + c by omega, Nat.add_mod_right,
            Nat.mod_eq_of_lt (by omega)]
        rw [hidx]
        exact hmodkey i hi
    · have hleft : (((s.buffer.drop start).take fc) ++ s.buffer.take (a - fc)).length = a := by
        rw [List.length_append, hlenL, hlenR]
        omega
      rw [List.getElem?_eq_none_iff.mpr (by rw [hleft]; omega),
        List.getElem?_eq_none_iff.mpr (by rw [List.length_drop]; omega)]

end Ring

/-- **C2**: starting from a fresh ring of positive capacity, after any
sequence of frame writes, `readRingBuffer n` returns exactly the last
`min(n, total written, capacity)` written samples in chronological order
(the suffix of the written stream), so writes beyond the capacity overwrite
the oldest samples; in particular the result has that length, and it is
empty when nothing has been written.  `readRingBuffer` is a pure function
of the state, so reading modifies nothing. -/
theorem ringBuffer_read_last_written (c n : ℕ) (hc : 0 < c) (frames : List (List ℚ)) :
    Ring.readRingBuffer (Ring.writeFrames (Ring.initRing c) frames) n =
      frames.flatten.drop
        (frames.flatten.length - min n (min frames.flatten.length c)) ∧
    (Ring.readRingBuffer (Ring.writeFrames (Ring.initRing c) frames) n).length =
      min n (min frames.flatten.length c) := by
  have hinv : Ring.Inv c frames.flatten (Ring.writeFrames (Ring.initRing c) frames) := by
    have h2 := Ring.inv_writeFrames hc frames (Ring.inv_init c)
    simpa using h2
  have hread := Ring.readRingBuffer_eq_of_inv hc hinv n
  refine ⟨hread, ?_⟩
  rw [hread, List.length_drop]
  omega

/-- Witness for C2: capacity 4, frames `[1,2,3]` then `[4,5,6]` (six
samples, wrapping past capacity), read of up to 10 samples returns the
last four written samples in order. -/
theorem ringBuffer_read_last_written_witness :
    Ring.readRingBuffer (Ring.writeFrames (Ring.initRing 4) [[1, 2, 3], [4, 5, 6]]) 10 =
      [3, 4, 5, 6] :=
  (ringBuffer_read_last_written 4 10 (by norm_num) [[1, 2, 3], [4, 5, 6]]).1.trans (by decide)

theorem clamp_of_mem {x lo hi : ℝ} (h1 : lo ≤ x) (h2 : x ≤ hi) : Rec.clamp x lo hi = x := by
  rw [Rec.clamp, max_eq_right h1, min_eq_right h2]

theorem computeAutoGains_some_some {r1 r2 : ℝ} (h1 : Rec.MIN_RMS < r1) (h2 : Rec.MIN_RMS < r2) :
    Rec.computeAutoGains (some r1) (some r2) =
      (Rec.clamp (Rec.clamp (Real.exp ((Real.log r1 + Real.log r2) / 2)) Rec.MIN_RMS
          Rec.TARGET_RMS_CAP / r1) Rec.MIN_AUTO_GAIN Rec.MAX_AUTO_GAIN,
       Rec.clamp (Rec.clamp (Real.exp ((Real.log r1 + Real.log r2) / 2)) Rec.MIN_RMS
          Rec.TARGET_RMS_CAP / r2) Rec.MIN_AUTO_GAIN Rec.MAX_AUTO_GAIN) := by
  have hd1 : decide (Rec.MIN_RMS < r1) = true := decide_eq_true h1
  have hd2 : decide (Rec.MIN_RMS < r2) = true := decide_eq_true h2
  simp only [Rec.computeAutoGains, List.filterMap_cons, id, List.filterMap_nil,
    List.filter_cons, hd1, hd2, if_true, List.filter_nil, List.length_cons,
    List.length_nil, List.map_cons, List.map_nil, List.sum_cons, List.sum_nil]
  norm_num [not_le.mpr h1, not_le.mpr h2]

theorem computeAutoGains_null_gain (a : Option ℝ) :
    (Rec.computeAutoGains a none).2 = 1 ∧ (Rec.computeAutoGains none a).1 = 1 := by
  constructor <;> (simp only [Rec.computeAutoGains]; split <;> rfl)

theorem computeAutoGains_below_floor (a : Option ℝ) (v : ℝ) (hv : v ≤ Rec.MIN_RMS) :
    (Rec.computeAutoGains a (some v)).2 = 1 ∧ (Rec.computeAutoGains (some v) a).1 = 1 := by
  constructor <;> (simp only [Rec.computeAutoGains]; split)
  · rfl
  · simp [hv]
  · rfl
  · simp [hv]

theorem computeAutoGains_single_valid {r : ℝ} (h : Rec.MIN_RMS < r) :
    Rec.computeAutoGains (some r) none =
      (Rec.clamp (Rec.clamp r Rec.MIN_RMS Rec.TARGET_RMS_CAP / r) Rec.MIN_AUTO_GAIN
        Rec.MAX_AUTO_GAIN, 1) ∧
    Rec.computeAutoGains none (some r) =
      (1, Rec.clamp (Rec.clamp r Rec.MIN_RMS Rec.TARGET_RMS_CAP / r) Rec.MIN_AUTO_GAIN
        Rec.MAX_AUTO_GAIN) := by
  have hrp : (0 : ℝ) < r := lt_trans (by norm_num [Rec.MIN_RMS]) h
  have hd : decide (Rec.MIN_RMS < r) = true := decide_eq_true h
  constructor <;>
    · simp only [Rec.computeAutoGains, List.filterMap_cons, id, List.filterMap_nil,
        List.filter_cons, hd, if_true, List.filter_nil, List.length_cons, List.length_nil,
        List.map_cons, List.map_nil, List.sum_cons, List.sum_nil]
      norm_num [not_le.mpr h, Real.exp_log hrp]

theorem computeAutoGains_mixed_floor {r v : ℝ} (h : Rec.MIN_RMS < r) (hv : v ≤ Rec.MIN_RMS) :
    Rec.computeAutoGains (some r) (some v) =
      (Rec.clamp (Rec.clamp r Rec.MIN_RMS Rec.TARGET_RMS_CAP / r) Rec.MIN_AUTO_GAIN
        Rec.MAX_AUTO_GAIN, 1) ∧
    Rec.computeAutoGains (some v) (some r) =
      (1, Rec.clamp (Rec.clamp r Rec.MIN_RMS Rec.TARGET_RMS_CAP / r) Rec.MIN_AUTO_GAIN
        Rec.MAX_AUTO_GAIN) := by
  have hrp : (0 : ℝ) < r := lt_trans (by norm_num [Rec.MIN_RMS]) h
  have hd : decide (Rec.MIN_RMS < r) = true := decide_eq_true h
  have hdv : decide (Rec.MIN_RMS < v) = false := decide_eq_false (not_lt.mpr hv)
  constructor <;>
    · simp only [Rec.computeAutoGains, List.filterMap_cons, id, List.filterMap_nil,
        List.filter_cons, hd, hdv, if_true, List.filter_nil, List.length_cons,
        List.length_nil, List.map_cons, List.map_nil, List.sum_cons, List.sum_nil]
      norm_num [not_le.mpr h, hv, Real.exp_log hrp]

theorem exp_half_log_eq_sqrt {r1 r2 : ℝ} (h1 : 0 < r1) (h2 : 0 < r2) :
    Real.exp ((Real.log r1 + Real.log r2) / 2) = Real.sqrt (r1 * r2) := by
  rw [← Real.log_mul (ne_of_gt h1) (ne_of_gt h2)]
  rw [Real.sqrt_eq_rpow, Real.rpow_def_of_pos (mul_pos h1 h2)]
  ring_nf

theorem sqrt_two_bounds : (1.414 : ℝ) < Real.sqrt 2 ∧ Real.sqrt 2 < 1.4143 := by
  have h2 := Real.sq_sqrt (by norm_num : (0:ℝ) ≤ 2)
  have hnn := Real.sqrt_nonneg 2
  constructor <;> nlinarith

/-- **C6**: for channels with valid rms (non-null, above the 1e-6 floor)
`computeAutoGains` returns `clamp(target / rms, 0.1, 4)` where `target`
is the geometric mean of all valid rms values (the code's
`exp(mean(log))`, proved equal to `sqrt(r1*r2)` for two valid channels and
to the rms itself when it is the only valid one — including when the other
channel is null or at or below the floor) clamped into `[1e-6, 0.35]`;
channels with no valid rms (null, falsy, or at or below the floor) get
gain exactly 1; `(null, null)` yields `(1, 1)`; and rms inputs
`(0.1, 0.2)` yield exactly `(sqrt 2, sqrt 2 / 2)`, within 1e-3 of
`(1.414, 0.707)`. -/
theorem computeAutoGains_characterization :
    (∀ r1 r2 : ℝ, Rec.MIN_RMS < r1 → Rec.MIN_RMS < r2 →
      Rec.computeAutoGains (some r1) (some r2) =
        (Rec.clamp (Rec.clamp (Real.sqrt (r1 * r2)) Rec.MIN_RMS Rec.TARGET_RMS_CAP / r1)
            Rec.MIN_AUTO_GAIN Rec.MAX_AUTO_GAIN,
         Rec.clamp (Rec.clamp (Real.sqrt (r1 * r2)) Rec.MIN_RMS Rec.TARGET_RMS_CAP / r2)
            Rec.MIN_AUTO_GAIN Rec.MAX_AUTO_GAIN)) ∧
    Rec.computeAutoGains none none = (1, 1) ∧
    (∀ a : Option ℝ, (Rec.computeAutoGains a none).2 = 1 ∧ (Rec.computeAutoGains none a).1 = 1) ∧
    (∀ (a : Option ℝ) (v : ℝ), v ≤ Rec.MIN_RMS →
      (Rec.computeAutoGains a (some v)).2 = 1 ∧ (Rec.computeAutoGains (some v) a).1 = 1) ∧
    Rec.computeAutoGains (some (1 / 10)) (some (2 / 10)) = (Real.sqrt 2, Real.sqrt 2 / 2) ∧
    |(Rec.computeAutoGains (some (1 / 10)) (some (2 / 10))).1 - 1.414| < 1 / 1000 ∧
    |(Rec.computeAutoGains (some (1 / 10)) (some (2 / 10))).2 - 0.707| < 1 / 1000 ∧
    (∀ r : ℝ, Rec.MIN_RMS < r →
      Rec.computeAutoGains (some r) none =
        (Rec.clamp (Rec.clamp r Rec.MIN_RMS Rec.TARGET_RMS_CAP / r) Rec.MIN_AUTO_GAIN
          Rec.MAX_AUTO_GAIN, 1) ∧
      Rec.computeAutoGains none (some r) =
        (1, Rec.clamp (Rec.clamp r Rec.MIN_RMS Rec.TARGET_RMS_CAP / r) Rec.MIN_AUTO_GAIN
          Rec.MAX_AUTO_GAIN)) ∧
    (∀ r v : ℝ, Rec.MIN_RMS < r → v ≤ Rec.MIN_RMS →
      Rec.computeAutoGains (some r) (some v) =
        (Rec.clamp (Rec.clamp r Rec.MIN_RMS Rec.TARGET_RMS_CAP / r) Rec.MIN_AUTO_GAIN
          Rec.MAX_AUTO_GAIN, 1) ∧
      Rec.computeAutoGains (some v) (some r) =
        (1, Rec.clamp (Rec.clamp r Rec.MIN_RMS Rec.TARGET_RMS_CAP / r) Rec.MIN_AUTO_GAIN
          Rec.MAX_AUTO_GAIN)) := by
  have hformula : ∀ r1 r2 : ℝ, Rec.MIN_RMS < r1 → Rec.MIN_RMS < r2 →
      Rec.computeAutoGains (some r1) (some r2) =
        (Rec.clamp (Rec.clamp (Real.sqrt (r1 * r2)) Rec.MIN_RMS Rec.TARGET_RMS_CAP / r1)
            Rec.MIN_AUTO_GAIN Rec.MAX_AUTO_GAIN,
         Rec.clamp (Rec.clamp (Real.sqrt (r1 * r2)) Rec.MIN_RMS Rec.TARGET_RMS_CAP / r2)
            Rec.MIN_AUTO_GAIN Rec.MAX_AUTO_GAIN) := by
    intro r1 r2 h1 h2
    have h1p : (0 : ℝ) < r1 := lt_trans (by norm_num [Rec.MIN_RMS]) h1
    have h2p : (0 : ℝ) < r2 := lt_trans (by norm_num [Rec.MIN_RMS]) h2
    rw [computeAutoGains_some_some h1 h2, exp_half_log_eq_sqrt h1p h2p]
  have hb := sqrt_two_bounds
  have hc := hformula (1 / 10) (2 / 10) (by norm_num [Rec.MIN_RMS]) (by norm_num [Rec.MIN_RMS])
  have hs : Real.sqrt ((1 : ℝ) / 10 * (2 / 10)) = Real.sqrt 2 / 10 := by
    rw [show ((1 : ℝ) / 10 * (2 / 10)) = 2 * (1 / 10) ^ 2 by norm_num,
      Real.sqrt_mul (by norm_num), Real.sqrt_sq (by norm_num : (0 : ℝ) ≤ 1 / 10)]
    ring
  have htarget : Rec.clamp (Real.sqrt 2 / 10) Rec.MIN_RMS Rec.TARGET_RMS_CAP =
      Real.sqrt 2 / 10 :=
    clamp_of_mem (by rw [Rec.MIN_RMS]; nlinarith [hb.1]) (by rw [Rec.TARGET_RMS_CAP]; nlinarith [hb.2])
  have hg1 : Rec.clamp (Real.sqrt 2 / 10 / (1 / 10)) Rec.MIN_AUTO_GAIN Rec.MAX_AUTO_GAIN =
      Real.sqrt 2 := by
    rw [show Real.sqrt 2 / 10 / ((1 : ℝ) / 10) = Real.sqrt 2 by ring]
    exact clamp_of_mem (by rw [Rec.MIN_AUTO_GAIN]; nlinarith [hb.1])
      (by rw [Rec.MAX_AUTO_GAIN]; nlinarith [hb.2])
  have hg2 : Rec.clamp (Real.sqrt 2 / 10 / (2 / 10)) Rec.MIN_AUTO_GAIN Rec.MAX_AUTO_GAIN =
      Real.sqrt 2 / 2 := by
    rw [show Real.sqrt 2 / 10 / ((2 : ℝ) / 10) = Real.sqrt 2 / 2 by ring]
    exact clamp_of_mem (by rw [Rec.MIN_AUTO_GAIN]; nlinarith [hb.1])
      (by rw [Rec.MAX_AUTO_GAIN]; nlinarith [hb.2])
  have heq : Rec.computeAutoGains (some (1 / 10)) (some (2 / 10)) =
      (Real.sqrt 2, Real.sqrt 2 / 2) := by
    rw [hc, hs, htarget, hg1, hg2]
  refine ⟨hformula, by simp [Rec.computeAutoGains], computeAutoGains_null_gain,
    computeAutoGains_below_floor, heq, ?_, ?_,
    fun r hr => computeAutoGains_single_valid hr,
    fun r v hr hv => computeAutoGains_mixed_floor hr hv⟩
  · rw [heq]
    rw [abs_lt]
    constructor <;> nlinarith [hb.1, hb.2]
  · rw [heq]
    rw [abs_lt]
    constructor <;> nlinarith [hb.1, hb.2]

/-- Witness for C6 at the valid pair (0.2, 0.2) and at the mixed pair
(0.5, null), whose single-element geometric mean gives the target 0.35 and
hence the gains (0.7, 1). -/
theorem computeAutoGains_characterization_witness :
    Rec.computeAutoGains (some (2 / 10)) (some (2 / 10)) =
      (Rec.clamp (Rec.clamp (Real.sqrt (2 / 10 * (2 / 10))) Rec.MIN_RMS Rec.TARGET_RMS_CAP / (2 / 10))
          Rec.MIN_AUTO_GAIN Rec.MAX_AUTO_GAIN,
       Rec.clamp (Rec.clamp (Real.sqrt (2 / 10 * (2 / 10))) Rec.MIN_RMS Rec.TARGET_RMS_CAP / (2 / 10))
          Rec.MIN_AUTO_GAIN Rec.MAX_AUTO_GAIN) ∧
    Rec.computeAutoGains (some (1 / 2)) none = (7 / 10, 1) :=
  ⟨computeAutoGains_characterization.1 (2 / 10) (2 / 10) (by norm_num [Rec.MIN_RMS])
      (by norm_num [Rec.MIN_RMS]),
   ((computeAutoGains_characterization.2.2.2.2.2.2.2.1 (1 / 2)
        (by norm_num [Rec.MIN_RMS])).1).trans
     (by norm_num [Rec.clamp, Rec.MIN_RMS, Rec.TARGET_RMS_CAP, Rec.MIN_AUTO_GAIN,
       Rec.MAX_AUTO_GAIN])⟩

/-- **C7**: when both rms values are valid, the geometric-mean target lies
inside the band `[1e-6, 0.35]`, and neither derived gain is clipped by the
clamp bounds 0.1 and 4, the gains satisfy `g1 * r1 = g2 * r2` exactly
(both products equal the target rms); and when a channel's rms is null,
that channel's gain is exactly 1. -/
theorem autoGain_balanced_loudness :
    (∀ r1 r2 : ℝ, Rec.MIN_RMS < r1 → Rec.MIN_RMS < r2 →
      Rec.MIN_RMS ≤ Real.exp ((Real.log r1 + Real.log r2) / 2) →
      Real.exp ((Real.log r1 + Real.log r2) / 2) ≤ Rec.TARGET_RMS_CAP →
      Rec.MIN_AUTO_GAIN ≤ Real.exp ((Real.log r1 + Real.log r2) / 2) / r1 →
      Real.exp ((Real.log r1 + Real.log r2) / 2) / r1 ≤ Rec.MAX_AUTO_GAIN →
      Rec.MIN_AUTO_GAIN ≤ Real.exp ((Real.log r1 + Real.log r2) / 2) / r2 →
      Real.exp ((Real.log r1 + Real.log r2) / 2) / r2 ≤ Rec.MAX_AUTO_GAIN →
      (Rec.computeAutoGains (some r1) (some r2)).1 * r1 =
        (Rec.computeAutoGains (some r1) (some r2)).2 * r2) ∧
    ∀ a : Option ℝ, (Rec.computeAutoGains a none).2 = 1 ∧
      (Rec.computeAutoGains none a).1 = 1 := by
  refine ⟨?_, computeAutoGains_null_gain⟩
  intro r1 r2 h1 h2 htlo hthi hg1lo hg1hi hg2lo hg2hi
  have h1p : (0 : ℝ) < r1 := lt_trans (by norm_num [Rec.MIN_RMS]) h1
  have h2p : (0 : ℝ) < r2 := lt_trans (by norm_num [Rec.MIN_RMS]) h2
  rw [computeAutoGains_some_some h1 h2]
  simp only
  rw [clamp_of_mem htlo hthi, clamp_of_mem hg1lo hg1hi, clamp_of_mem hg2lo hg2hi,
    div_mul_cancel₀ _ (ne_of_gt h1p), div_mul_cancel₀ _ (ne_of_gt h2p)]

/-- Witness for C7 at rms values (0.2, 0.2), where the target equals 0.2
and both gains are 1. -/
theorem autoGain_balanced_loudness_witness :
    (Rec.computeAutoGains (some (2 / 10)) (some (2 / 10))).1 * (2 / 10) =
      (Rec.computeAutoGains (some (2 / 10)) (some (2 / 10))).2 * (2 / 10) := by
  have hlog : Real.exp ((Real.log (2 / 10) + Real.log (2 / 10)) / 2) = 2 / 10 := by
    rw [show (Real.log (2 / 10) + Real.log (2 / 10)) / 2 = Real.log (2 / 10) by ring,
      Real.exp_log (by norm_num)]
  exact autoGain_balanced_loudness.1 (2 / 10) (2 / 10)
    (by norm_num [Rec.MIN_RMS]) (by norm_num [Rec.MIN_RMS])
    (by rw [hlog]; norm_num [Rec.MIN_RMS]) (by rw [hlog]; norm_num [Rec.TARGET_RMS_CAP])
    (by rw [hlog]; norm_num [Rec.MIN_AUTO_GAIN]) (by rw [hlog]; norm_num [Rec.MAX_AUTO_GAIN])
    (by rw [hlog]; norm_num [Rec.MIN_AUTO_GAIN]) (by rw [hlog]; norm_num [Rec.MAX_AUTO_GAIN])

theorem corrDen_pos (values reference : List ℝ) {wl : ℕ} (hwl : 0 < wl) (start : ℕ) :
    0 < Corr.corrDen values reference wl start := by
  have h1 : (0 : ℝ) < Corr.MIN_STANDARD_DEVIATION := by norm_num [Corr.MIN_STANDARD_DEVIATION]
  simp only [Corr.corrDen, Corr.refStdOf]
  refine mul_pos (mul_pos ?_ ?_) ?_
  · exact_mod_cast hwl
  · exact lt_of_lt_of_le h1 (le_max_right _ _)
  · exact lt_of_lt_of_le h1 (le_max_right _ _)

theorem goodState_step {values reference : List ℝ} {wl : ℕ} (hwl : 0 < wl) (center : ℕ)
    (seen : List ℕ) (st : Option (ℝ × ℝ) × ℕ) (c : ℕ)
    (h : Corr.GoodState values reference wl seen st) :
    Corr.GoodState values reference wl (seen ++ [c])
      (Corr.stepBest values reference wl center st c) := by
  have hden := corrDen_pos values reference hwl c
  have heps : (0 : ℝ) < Corr.SCORE_EPSILON := by norm_num [Corr.SCORE_EPSILON]
  have hsc_eq : Corr.corrNum values reference wl c / Corr.corrDen values reference wl c =
      Corr.scoreAt values reference wl c := rfl
  obtain ⟨stb, sts⟩ := st
  cases stb with
  | none =>
      simp only [Corr.GoodState] at h
      subst h
      simp only [Corr.stepBest]
      rw [if_pos hden]
      simp only [Corr.GoodState, List.nil_append, List.mem_singleton]
      refine ⟨trivial, ?_, ?_⟩
      · rw [hsc_eq]
        linarith
      · intro x hx
        subst hx
        rw [hsc_eq]
        linarith
  | some p =>
      obtain ⟨bs, bd⟩ := p
      simp only [Corr.GoodState] at h
      obtain ⟨hmem, hbest, hall⟩ := h
      simp only [Corr.stepBest]
      rw [if_pos hden]
      by_cases hup : bs + Corr.SCORE_EPSILON <
          Corr.corrNum values reference wl c / Corr.corrDen values reference wl c
      · rw [if_pos hup]
        simp only [Corr.GoodState]
        refine ⟨List.mem_append_right _ (List.mem_singleton_self c), ?_, ?_⟩
        · rw [hsc_eq]
          linarith
        · intro x hx
          rcases List.mem_append.mp hx with hx | hx
          · exact le_trans (hall x hx) (by linarith)
          · rw [List.mem_singleton] at hx
            subst hx
            rw [hsc_eq]
            linarith
      · rw [if_neg hup]
        by_cases htie : |Corr.corrNum values reference wl c / Corr.corrDen values reference wl c
            - bs| ≤ Corr.SCORE_EPSILON ∧ |(c : ℝ) - (center : ℝ)| < bd
        · rw [if_pos htie]
          simp only [Corr.GoodState]
          have habs := abs_le.mp htie.1
          refine ⟨List.mem_append_right _ (List.mem_singleton_self c), ?_, ?_⟩
          · rw [hsc_eq] at habs
            linarith [habs.1]
          · intro x hx
            rcases List.mem_append.mp hx with hx | hx
            · exact hall x hx
            · rw [List.mem_singleton] at hx
              subst hx
              rw [hsc_eq] at habs
              linarith [habs.2]
        · rw [if_neg htie]
          simp only [Corr.GoodState]
          refine ⟨List.mem_append_left _ hmem, hbest, ?_⟩
          intro x hx
          rcases List.mem_append.mp hx with hx | hx
          · exact hall x hx
          · rw [List.mem_singleton] at hx
            subst hx
            rw [← hsc_eq]
            push_neg at hup
            linarith

theorem goodState_foldl {values reference : List ℝ} {wl : ℕ} (hwl : 0 < wl) (center : ℕ)
    (cs : List ℕ) :
    ∀ (seen : List ℕ) (st : Option (ℝ × ℝ) × ℕ),
      Corr.GoodState values reference wl seen st →
      Corr.GoodState values reference wl (seen ++ cs)
        (cs.foldl (Corr.stepBest values reference wl center) st) := by
  induction cs with
  | nil => intro seen st h; simpa using h
  | cons c cs ih =>
      intro seen st h
      have h2 := ih (seen ++ [c]) _ (goodState_step hwl center seen st c h)
      simpa [List.append_assoc] using h2

theorem foldl_push_ne_nil (g : ℕ → ℕ) (l : List ℕ) :
    ∀ acc : List ℕ, acc ≠ [] ∨ l ≠ [] →
      l.foldl (fun acc i => if acc.getLast? = some (g i) then acc else acc ++ [g i]) acc ≠ [] := by
  induction l with
  | nil =>
      intro acc h
      rcases h with h | h
      · simpa using h
      · simp at h
  | cons x xs ih =>
      intro acc h
      simp only [List.foldl_cons]
      apply ih
      left
      by_cases hc : acc.getLast? = some (g x)
      · rw [if_pos hc]
        intro hacc
        subst hacc
        simp at hc
      · rw [if_neg hc]
        simp

theorem buildCandidates_ne_nil (startMin span b : ℕ) :
    Corr.buildCandidates startMin span (b + 1) ≠ [] := by
  have h := foldl_push_ne_nil
    (fun i => (round ((startMin : ℚ) + (span : ℚ) * (i : ℚ) / (((b + 1 : ℕ) : ℚ) - 1))).toNat)
    (List.range (b + 1)) [] (Or.inr (by simp))
  simpa [Corr.buildCandidates] using h

theorem candidateList_ne_nil (valuesLen wl center startMax maxIter startMin : ℕ) :
    Corr.candidateList valuesLen wl center startMax maxIter startMin ≠ [] := by
  simp only [Corr.candidateList]
  split
  · simp
  · have hb : max 1 (min maxIter (min startMax (valuesLen - wl) - startMin + 1)) =
        (max 1 (min maxIter (min startMax (valuesLen - wl) - startMin + 1)) - 1) + 1 := by
      omega
    rw [hb]
    exact buildCandidates_ne_nil _ _ _

/-- **C8** (amended).  Whenever the candidate loop runs (positive window
length, positive clamped start bound), `findBestCorrelationStart` returns
one of the evaluated candidates, and that candidate's Pearson score is
within `2 * SCORE_EPSILON` of the maximum candidate score — not within
`SCORE_EPSILON` as claimed, because the running best score lags the true
maximum by up to one epsilon and the closer-start tie branch may move the
returned start another epsilon below the running best.  Near ties are
broken toward the start closest to the previous frame's start only
relative to the running best, as the loop processes candidates. -/
theorem correlation_select_amended (values reference : List ℝ)
    (wl center startMax maxIter startMin : ℕ) (hwl : 0 < wl)
    (hcl : min startMax (values.length - wl) ≠ 0) :
    Corr.findBestCorrelationStart values reference wl center startMax maxIter startMin ∈
      Corr.candidateList values.length wl center startMax maxIter startMin ∧
    ∀ x ∈ Corr.candidateList values.length wl center startMax maxIter startMin,
      Corr.scoreAt values reference wl x ≤
        Corr.scoreAt values reference wl
          (Corr.findBestCorrelationStart values reference wl center startMax maxIter startMin) +
        2 * Corr.SCORE_EPSILON := by
  have hfb : Corr.findBestCorrelationStart values reference wl center startMax maxIter startMin =
      ((Corr.candidateList values.length wl center startMax maxIter startMin).foldl
        (Corr.stepBest values reference wl center) (none, 0)).2 := by
    simp only [Corr.findBestCorrelationStart]
    rw [if_neg hcl]
  have hgood := @goodState_foldl values reference wl hwl center
    (Corr.candidateList values.length wl center startMax maxIter startMin) [] (none, 0)
    (by simp [Corr.GoodState])
  rw [List.nil_append] at hgood
  cases hf1 : ((Corr.candidateList values.length wl center startMax maxIter startMin).foldl
      (Corr.stepBest values reference wl center) (none, 0)).1 with
  | none =>
      exfalso
      simp only [Corr.GoodState, hf1] at hgood
      exact candidateList_ne_nil _ _ _ _ _ _ hgood
  | some p =>
      obtain ⟨bs, bd⟩ := p
      simp only [Corr.GoodState, hf1] at hgood
      obtain ⟨hmem, hbest, hall⟩ := hgood
      rw [hfb]
      refine ⟨hmem, ?_⟩
      intro x hx
      have h1 := hall x hx
      linarith

/-- Witness for C8's amended claim at the counterexample input. -/
theorem correlation_select_amended_witness :
    Corr.findBestCorrelationStart Corr.valuesC8 Corr.refC8 4 8 8 3 0 ∈
      Corr.candidateList Corr.valuesC8.length 4 8 8 3 0 ∧
    ∀ x ∈ Corr.candidateList Corr.valuesC8.length 4 8 8 3 0,
      Corr.scoreAt Corr.valuesC8 Corr.refC8 4 x ≤
        Corr.scoreAt Corr.valuesC8 Corr.refC8 4
          (Corr.findBestCorrelationStart Corr.valuesC8 Corr.refC8 4 8 8 3 0) +
        2 * Corr.SCORE_EPSILON :=
  correlation_select_amended Corr.valuesC8 Corr.refC8 4 8 8 3 0 (by norm_num)
    (by simp [Corr.valuesC8])

theorem corrNum_C8_0 : Corr.corrNum Corr.valuesC8 Corr.refC8 4 0 = 0 := by
  simp only [Corr.corrNum, Corr.sampleAt, Corr.valuesC8, Corr.refC8, Finset.sum_range_succ,
    Finset.sum_range_zero]
  norm_num

theorem corrDen_C8_0 : Corr.corrDen Corr.valuesC8 Corr.refC8 4 0 = 4 := by
  simp only [Corr.corrDen, Corr.refStdOf, Corr.sampleAt, Corr.valuesC8, Corr.refC8,
    Finset.sum_range_succ, Finset.sum_range_zero]
  norm_num [Real.sqrt_one, Corr.MIN_STANDARD_DEVIATION]

theorem corrNum_C8_4 : Corr.corrNum Corr.valuesC8 Corr.refC8 4 4 = 88892 := by
  simp only [Corr.corrNum, Corr.sampleAt, Corr.valuesC8, Corr.refC8, Finset.sum_range_succ,
    Finset.sum_range_zero]
  norm_num

theorem corrDen_C8_4 : Corr.corrDen Corr.valuesC8 Corr.refC8 4 4 = 987723460 := by
  simp only [Corr.corrDen, Corr.refStdOf, Corr.sampleAt, Corr.valuesC8, Corr.refC8,
    Finset.sum_range_succ, Finset.sum_range_zero]
  have hsq : Real.sqrt ((60974852089648225 : ℝ)) = 246930865 := by
    rw [show (60974852089648225 : ℝ) = (246930865 : ℝ) ^ 2 by norm_num]
    exact Real.sqrt_sq (by norm_num)
  norm_num [Real.sqrt_one, hsq, Corr.MIN_STANDARD_DEVIATION]

theorem corrNum_C8_8 : Corr.corrNum Corr.valuesC8 Corr.refC8 4 8 = -88892 := by
  simp only [Corr.corrNum, Corr.sampleAt, Corr.valuesC8, Corr.refC8, Finset.sum_range_succ,
    Finset.sum_range_zero]
  norm_num

theorem corrDen_C8_8 : Corr.corrDen Corr.valuesC8 Corr.refC8 4 8 = 987723460 := by
  simp only [Corr.corrDen, Corr.refStdOf, Corr.sampleAt, Corr.valuesC8, Corr.refC8,
    Finset.sum_range_succ, Finset.sum_range_zero]
  have hsq : Real.sqrt ((60974852089648225 : ℝ)) = 246930865 := by
    rw [show (60974852089648225 : ℝ) = (246930865 : ℝ) ^ 2 by norm_num]
    exact Real.sqrt_sq (by norm_num)
  norm_num [Real.sqrt_one, hsq, Corr.MIN_STANDARD_DEVIATION]

theorem valuesC8_length : Corr.valuesC8.length = 12 := by
  simp [Corr.valuesC8]

theorem candidateList_C8 : Corr.candidateList 12 4 8 8 3 0 = [0, 4, 8] := by
  norm_num [Corr.candidateList, Corr.buildCandidates, List.range_succ]
  decide

theorem stepBest_C8_0 :
    Corr.stepBest Corr.valuesC8 Corr.refC8 4 8 (none, 0) 0 = (some (0, 8), 0) := by
  simp only [Corr.stepBest, corrNum_C8_0, corrDen_C8_0]
  norm_num

theorem stepBest_C8_4 :
    Corr.stepBest Corr.valuesC8 Corr.refC8 4 8 (some (0, 8), 0) 4 = (some (0, 4), 4) := by
  simp only [Corr.stepBest, corrNum_C8_4, corrDen_C8_4]
  rw [if_pos (by norm_num)]
  rw [if_neg (by norm_num [Corr.SCORE_EPSILON])]
  rw [if_pos (by refine ⟨?_, by norm_num⟩; rw [abs_le]; constructor <;>
    norm_num [Corr.SCORE_EPSILON])]
  norm_num

theorem stepBest_C8_8 :
    Corr.stepBest Corr.valuesC8 Corr.refC8 4 8 (some (0, 4), 4) 8 = (some (0, 0), 8) := by
  simp only [Corr.stepBest, corrNum_C8_8, corrDen_C8_8]
  rw [if_pos (by norm_num)]
  rw [if_neg (by norm_num [Corr.SCORE_EPSILON])]
  rw [if_pos (by refine ⟨?_, by norm_num⟩; rw [abs_le]; constructor <;>
    norm_num [Corr.SCORE_EPSILON])]
  norm_num

/-- **C8** (counterexample).  On `valuesC8`/`refC8` with window length 4,
previous start 8, start range `[0, 8]` and a 3-candidate budget, the
candidates are 0, 4 and 8 with scores 0, `+22223/246930865` and
`-22223/246930865`: the loop keeps `bestScore = 0` (no candidate beats it
by more than the epsilon) while the tie branch walks `bestStart` to the
closest candidate 8, whose score is `2 * 22223/246930865 > SCORE_EPSILON`
below the best candidate's score at 4 — the returned candidate is not
within the tie epsilon of the maximum score. -/
theorem correlation_select_counterexample :
    Corr.findBestCorrelationStart Corr.valuesC8 Corr.refC8 4 8 8 3 0 = 8 ∧
    4 ∈ Corr.candidateList Corr.valuesC8.length 4 8 8 3 0 ∧
    Corr.SCORE_EPSILON <
      Corr.scoreAt Corr.valuesC8 Corr.refC8 4 4 -
        Corr.scoreAt Corr.valuesC8 Corr.refC8 4 8 := by
  have hfind : Corr.findBestCorrelationStart Corr.valuesC8 Corr.refC8 4 8 8 3 0 = 8 := by
    simp only [Corr.findBestCorrelationStart, valuesC8_length]
    rw [if_neg (by norm_num), candidateList_C8, List.foldl_cons, List.foldl_cons,
      List.foldl_cons, List.foldl_nil, stepBest_C8_0, stepBest_C8_4, stepBest_C8_8]
  refine ⟨hfind, ?_, ?_⟩
  · rw [valuesC8_length, candidateList_C8]
    simp
  · simp only [Corr.scoreAt, corrNum_C8_4, corrDen_C8_4, corrNum_C8_8, corrDen_C8_8]
    norm_num [Corr.SCORE_EPSILON]
